import Mathlib

/-!
Shallow embedding of the `lgio` buffered I/O library.

Readers are modelled as explicit state machines: `fill_buf` is a function
from a reader state to either an error or a pair of the returned byte
slice and the successor state, and `consume` is a pure state transformer.
Writers are modelled analogously.  Bytes are natural numbers; machine
integers (`u64` limits, `usize` lengths) are naturals with the relevant
modular arithmetic made explicit.
-/

namespace Lgio

/-- Bytes are modelled as natural numbers. -/
abbrev Byte := Nat

/-- Modulus of the 64-bit unsigned integer type used for `Take::limit`. -/
def U64_MOD : Nat := 2 ^ 64

/-- The reader contract from `lib.rs` (`trait BufRead`): `fill_buf` returns
a byte slice view together with the successor state (or an error of the
associated error type), and `consume` is pure bookkeeping on the state. -/
structure Reader (σ : Type) (ε : Type) where
  fillBuf : σ → Except ε (List Byte × σ)
  consume : Nat → σ → σ

/-- The writer contract from `lib.rs` (`trait BufWrite`): `write_all` either
accepts the whole byte sequence producing a successor state or fails, and
`flush` likewise. -/
structure Writer (σ : Type) (ε : Type) where
  writeAll : List Byte → σ → Except ε σ
  flush : σ → Except ε σ

/-- An entity that is simultaneously a reader and a writer over the same
state, with separate read and write error types (the shape required by the
`MapErr` and `UnifyErr` adapters in `adapters/map_err.rs`). -/
structure ReadWriter (σ : Type) (εr : Type) (εw : Type) where
  fillBuf : σ → Except εr (List Byte × σ)
  consume : Nat → σ → σ
  writeAll : List Byte → σ → Except εw σ
  flush : σ → Except εw σ

/-- Error type of `&[u8]` readers (`core::convert::Infallible`): uninhabited. -/
abbrev Infallible := Empty

/-- The `impl BufRead for &[u8]` in `sync_impls.rs`: `fill_buf` returns the
whole remaining slice without changing state and `consume` drops a prefix. -/
def sliceReader : Reader (List Byte) Infallible where
  fillBuf s := .ok (s, s)
  consume n s := s.drop n

/-- State of the `Chain` adapter (`adapters/chain.rs`): the two inner reader
states and the one-way `is_right` flag. -/
structure ChainState (σl : Type) (σr : Type) where
  left : σl
  right : σr
  is_right : Bool
deriving DecidableEq, Repr

/-- The `impl BufRead for Chain` in `adapters/chain.rs`: delegate to the left
reader until it returns an empty slice, then flip `is_right` and delegate to
the right reader from that call onwards; `consume` forwards to the active
side. -/
def chainReader (l : Reader σl ε) (r : Reader σr ε) : Reader (ChainState σl σr) ε where
  fillBuf s :=
    if s.is_right then
      match r.fillBuf s.right with
      | .error e => .error e
      | .ok (buf, sr) => .ok (buf, ⟨s.left, sr, true⟩)
    else
      match l.fillBuf s.left with
      | .error e => .error e
      | .ok (buf, sl) =>
        if buf.isEmpty then
          match r.fillBuf s.right with
          | .error e => .error e
          | .ok (buf2, sr) => .ok (buf2, ⟨sl, sr, true⟩)
        else
          .ok (buf, ⟨sl, s.right, false⟩)
  consume n s :=
    if s.is_right then ⟨s.left, r.consume n s.right, true⟩
    else ⟨l.consume n s.left, s.right, false⟩

/-- State of the `Take` adapter (`adapters/take.rs`): the inner reader state
and the remaining `u64` byte budget.  The debug-only `last_len` field is
bookkeeping for a debug assertion and carries no release-build behaviour. -/
structure TakeState (σ : Type) where
  reader : σ
  limit : Nat
deriving DecidableEq, Repr

/-- The helper `fn min(a: u64, b: usize) -> usize` from `adapters/take.rs`:
`usize::try_from(a)` succeeds exactly when `a` fits into a `usize`
(`a ≤ usizeMax`), in which case the minimum is taken; otherwise `b` is
returned unchanged. -/
def takeTruncMin (usizeMax : Nat) (a : Nat) (b : Nat) : Nat :=
  if a ≤ usizeMax then Nat.min a b else b

/-- The `impl BufRead for Take` in `adapters/take.rs`: `fill_buf` always
delegates to the inner reader and truncates the returned slice to
`min(limit, buf.len())`; `consume` forwards to the inner reader and performs
the wrapping `u64` subtraction `limit -= amount as u64`. -/
def takeReader (usizeMax : Nat) (r : Reader σ ε) : Reader (TakeState σ) ε where
  fillBuf s :=
    match r.fillBuf s.reader with
    | .error e => .error e
    | .ok (buf, s') =>
        .ok (buf.take (takeTruncMin usizeMax s.limit buf.length), ⟨s', s.limit⟩)
  consume n s :=
    ⟨r.consume n s.reader, (s.limit + U64_MOD - n % U64_MOD) % U64_MOD⟩

/-- Repeatedly call `fill_buf`, append the returned slice and `consume` its
full length, stopping at the first empty slice — the read-to-completion loop
used throughout the crate (`read_to_end` in `lib.rs` and the adapter tests).
Fuel bounds the number of `fill_buf` calls; `none` means the fuel ran out. -/
def readAll (r : Reader σ ε) : Nat → σ → Option (Except ε (List Byte × σ))
  | 0, _ => none
  | fuel + 1, s =>
    match r.fillBuf s with
    | .error e => some (.error e)
    | .ok (buf, s') =>
      if buf.isEmpty then some (.ok ([], s'))
      else
        match readAll r fuel (r.consume buf.length s') with
        | none => none
        | some (.error e) => some (.error e)
        | some (.ok (rest, s'')) => some (.ok (buf ++ rest, s''))

/-- The error type from `error.rs` recording that a write ran past the end
of a fixed-capacity buffer; `bytes_past_end` counts the excess bytes. -/
structure BufferOverflow where
  bytes_past_end : Nat
deriving DecidableEq, Repr

/-- The error type from `error.rs` recording a short read: the total number
of bytes the read required and the `available` count (whose `Display`
implementation reads it as the number of bytes actually read). -/
structure UnexpectedEnd where
  total_required : Nat
  available : Nat
deriving DecidableEq, Repr

/-- The composite error of `BufRead::read_exact` from `error.rs`: either a
short read or the underlying reader failure carried verbatim. -/
inductive ReadExactError (ε : Type) where
  | unexpectedEnd : UnexpectedEnd → ReadExactError ε
  | readingFailed : ε → ReadExactError ε
deriving DecidableEq, Repr

/-- Loop body of `BufRead::read_exact` from `lib.rs`, translated exactly:
while the destination is not full, call `fill_buf`; an empty slice aborts
with `unexpected_end(required, buf.len())`; otherwise copy
`min(buf.len(), read.len())` bytes into the destination.  The source loop
contains no `consume` call, so none appears here.  The returned list is the
final content of the destination buffer. -/
def readExactLoop (r : Reader σ ε) (required : Nat) (remaining : Nat) (s : σ) :
    Except (ReadExactError ε) (List Byte × σ) :=
  if h : remaining = 0 then .ok ([], s)
  else
    match r.fillBuf s with
    | .error e => .error (.readingFailed e)
    | .ok (read, s') =>
      if h2 : read.isEmpty then .error (.unexpectedEnd ⟨required, remaining⟩)
      else
        match readExactLoop r required (remaining - Nat.min remaining read.length) s' with
        | .error e => .error e
        | .ok (rest, s'') => .ok (read.take (Nat.min remaining read.length) ++ rest, s'')
termination_by remaining
decreasing_by
  have hr : 0 < read.length := by
    cases read with
    | nil => simp at h2
    | cons a t => simp
  have hmin : 0 < Nat.min remaining read.length :=
    Nat.lt_min.mpr ⟨Nat.pos_of_ne_zero h, hr⟩
  omega

/-- The `read_exact` method on a destination of length `n`, per `lib.rs`:
runs the loop with `required = n` and the whole destination still to fill. -/
def readExact (r : Reader σ ε) (n : Nat) (s : σ) :
    Except (ReadExactError ε) (List Byte × σ) :=
  readExactLoop r n n s

/-- State of the fixed-capacity writer `impl BufWrite for &mut [u8]` in
`sync_impls.rs`.  The Rust value is the not-yet-written window of an
underlying buffer; the state records the full underlying buffer together
with the write position, so the window is `buf.drop pos` and the remaining
capacity is `buf.length - pos`. -/
structure SliceWriterState where
  buf : List Byte
  pos : Nat
deriving DecidableEq, Repr

/-- The `write_all` of `impl BufWrite for &mut [u8]` in `sync_impls.rs`: if
the bytes exceed the remaining window, fail with
`BufferOverflow::new(bytes.len() - self.len())` before touching the buffer;
otherwise overwrite the front of the window with the bytes and shrink the
window past them.  Returns the result paired with the successor state (the
state is unchanged on failure, mirroring the early `return Err`). -/
def sliceWriteAll (bytes : List Byte) (s : SliceWriterState) :
    Except BufferOverflow Unit × SliceWriterState :=
  if bytes.length > s.buf.length - s.pos then
    (.error ⟨bytes.length - (s.buf.length - s.pos)⟩, s)
  else
    (.ok (), ⟨s.buf.take s.pos ++ bytes ++ s.buf.drop (s.pos + bytes.length),
              s.pos + bytes.length⟩)

/-- Rust's `Result::map_err`: transform the error channel only. -/
def mapError (f : ε → ε') : Except ε α → Except ε' α
  | .error e => .error (f e)
  | .ok a => .ok a

/-- The `MapReadErr` adapter (`adapters/map_err.rs`): `fill_buf` delegates
and maps the error through the closure; `consume` delegates untouched. -/
def mapReadErr (r : Reader σ ε) (f : ε → ε') : Reader σ ε' where
  fillBuf s := mapError f (r.fillBuf s)
  consume := r.consume

/-- The `MapWriteErr` adapter (`adapters/map_err.rs`): `write_all` and
`flush` delegate and map the error through the closure. -/
def mapWriteErr (w : Writer σ ε) (f : ε → ε') : Writer σ ε' where
  writeAll bytes s := mapError f (w.writeAll bytes s)
  flush s := mapError f (w.flush s)

/-- The `MapErr` adapter (`adapters/map_err.rs`): one closure maps both the
read and the write error channel of a combined reader-writer; `consume`
delegates untouched. -/
def mapErr (io : ReadWriter σ ε ε) (f : ε → ε') : ReadWriter σ ε' ε' where
  fillBuf s := mapError f (io.fillBuf s)
  consume := io.consume
  writeAll bytes s := mapError f (io.writeAll bytes s)
  flush s := mapError f (io.flush s)

/-- The `UnifyErr` adapter (`adapters/map_err.rs`): both error channels are
converted into a common target type via their `Into` conversions, modelled
as the two functions `ir` and `iw`. -/
def unifyErr (io : ReadWriter σ εr εw) (ir : εr → ε) (iw : εw → ε) :
    ReadWriter σ ε ε where
  fillBuf s := mapError ir (io.fillBuf s)
  consume := io.consume
  writeAll bytes s := mapError iw (io.writeAll bytes s)
  flush s := mapError iw (io.flush s)

/-- Kinds of errors of the external `std::io` ecosystem; only the
`Interrupted` kind is distinguished by the bridge code. -/
inductive IoErrorKind where
  | interrupted
  | other (code : Nat)
deriving DecidableEq, Repr

/-- An external `std::io::Error`, modelled as its kind plus an opaque
payload so that "returned as-is" is observable. -/
structure IoError where
  kind : IoErrorKind
  payload : Nat
deriving DecidableEq, Repr

/-- One response of an external `std::io::BufRead` entity: either a byte
slice or an `std::io::Error`. -/
abbrev StdResult := Except IoError (List Byte)

/-- The check `error.kind() == io::ErrorKind::Interrupted` performed by the
reverse bridge, lifted to whole results (a success is never interrupted). -/
def isInterruptedResult : StdResult → Bool
  | .error e => e.kind = IoErrorKind.interrupted
  | .ok _ => false

/-- The `fill_buf` of the reverse bridge `StdBufRead` (`adapters/std.rs`,
identical to the free function `fill_buf` in `sync_impls.rs`): loop over the
inner entity's responses — modelled as the script of results successive
calls produce — skipping every `Interrupted` error and returning the first
other result unchanged together with the rest of the script; `none` models
the loop never receiving a non-interrupted response. -/
def stdBufReadFillBuf : List StdResult → Option (StdResult × List StdResult)
  | [] => none
  | .ok bytes :: rest => some (.ok bytes, rest)
  | .error e :: rest =>
    if e.kind = IoErrorKind.interrupted then stdBufReadFillBuf rest
    else some (.error e, rest)

/-- The `io::Write::write` of the forward bridge `AsStd` (`adapters/std.rs`):
delegate the whole buffer to the inner `write_all` through the `UnifyErr`
wrapper stored in the adapter, and on success report the full buffer
length. -/
def asStdWrite (io : ReadWriter σ εr εw) (ir : εr → IoError) (iw : εw → IoError)
    (buf : List Byte) (s : σ) : Except IoError (Nat × σ) :=
  match (unifyErr io ir iw).writeAll buf s with
  | .error e => .error e
  | .ok s' => .ok (buf.length, s')

/-- The `io::Write::write` of the forward bridge `AsStdWriter`
(`adapters/std.rs`): delegate the whole buffer to the inner `write_all`,
convert the error via `Into`, and on success report the full buffer
length. -/
def asStdWriterWrite (w : Writer σ ε) (iw : ε → IoError)
    (buf : List Byte) (s : σ) : Except IoError (Nat × σ) :=
  match w.writeAll buf s with
  | .error e => .error (iw e)
  | .ok s' => .ok (buf.length, s')

/-- Value of `usize::MAX` on a 64-bit platform, used when a concrete platform
word size is needed. -/
def USIZE_MAX_64 : Nat := 2 ^ 64 - 1

/-- A reader whose `fill_buf` always fails, used to observe that an adapter
invoked its inner reader's `fill_buf`. -/
def failReader : Reader Unit Nat where
  fillBuf _ := .error 7
  consume _ s := s

/-- A reader at EOF that counts how many times its `fill_buf` was invoked,
used to observe inner-reader invocations and state changes. -/
def countingEmptyReader : Reader Nat Infallible where
  fillBuf n := .ok ([], n + 1)
  consume _ s := s

/-- A concrete failing reader over `Nat` state used to exercise the
error-mapping adapters. -/
def constErrReader : Reader Nat Nat where
  fillBuf s := .error (s + 1)
  consume n s := s + n

/-- A concrete writer over `Nat` state (its state counts accepted bytes)
used to exercise the error-mapping adapters. -/
def natWriter : Writer Nat Nat where
  writeAll b s := .ok (s + b.length)
  flush _ := .error 5

/-- A concrete combined reader-writer used to exercise the `MapErr` and
`UnifyErr` adapters. -/
def toyIo : ReadWriter Nat Nat Nat where
  fillBuf s := .ok ([7], s + 1)
  consume n s := s + n
  writeAll b s := .error (s + b.length)
  flush s := .ok s

/-- The growable-buffer writer `impl BufWrite for Vec<u8>` in
`sync_impls.rs`: `write_all` appends and never fails. -/
def vecWriter : Writer (List Byte) Infallible where
  writeAll b s := .ok (s ++ b)
  flush s := .ok s

/-- A combined reader-writer over a growable buffer (EOF reader plus the
`Vec<u8>` writer), used to exercise the forward bridge `AsStd`. -/
def vecIo : ReadWriter (List Byte) Infallible Infallible where
  fillBuf s := .ok ([], s)
  consume _ s := s
  writeAll b s := .ok (s ++ b)
  flush s := .ok s

/-- Unfolding equation of one iteration of the read-to-completion loop. -/
theorem readAll_succ (r : Reader σ ε) (fuel : Nat) (s : σ) :
    readAll r (fuel + 1) s =
      match r.fillBuf s with
      | .error e => some (.error e)
      | .ok (buf, s') =>
        if buf.isEmpty then some (.ok ([], s'))
        else
          match readAll r fuel (r.consume buf.length s') with
          | none => none
          | some (.error e) => some (.error e)
          | some (.ok (rest, s'')) => some (.ok (buf ++ rest, s'')) := rfl

/-- Wrapping 64-bit subtraction agrees with exact subtraction when the
subtrahend does not exceed the minuend and the minuend is a valid `u64`. -/
theorem u64_wrap_sub_eq (a b : Nat) (hb : b ≤ a) (ha : a < U64_MOD) :
    (a + U64_MOD - b % U64_MOD) % U64_MOD = a - b := by
  have hbm : b % U64_MOD = b := Nat.mod_eq_of_lt (lt_of_le_of_lt hb ha)
  rw [hbm]
  have h64 : U64_MOD = 18446744073709551616 := by norm_num [U64_MOD]
  rw [h64] at ha ⊢
  omega

/-- Claim C1 (code bug evaluation): `read_exact` in `lib.rs` copies from
`fill_buf` in a loop but never calls `consume`.  On the reader
`chain([1], [2])` (byte sequence `A = [1, 2]`) with a destination of length
`n = 2 ≤ |A|`, the code returns `Ok` but fills the destination with
`[1, 1]` — the first chunk copied twice — and leaves the reader state
unchanged, instead of filling it with the first two bytes `[1, 2]` and
advancing the reader past them as the claim states. -/
theorem read_exact_never_consumes :
    readExact (chainReader sliceReader sliceReader) 2 ⟨[1], [2], false⟩
      = .ok ([1, 1], ⟨[1], [2], false⟩) := by
  simp [readExact, readExactLoop, chainReader, sliceReader]

/-- Claim C2 (code bug evaluation): `Take::fill_buf` in `adapters/take.rs`
has no `limit == 0` early return — it unconditionally invokes the inner
reader and truncates the result.  With a zero budget, an inner reader that
fails makes `fill_buf` return that error instead of `Ok` with an empty
slice, and an inner reader at EOF still has its `fill_buf` invoked (its
state advances), contradicting the claim that the inner reader is not
invoked at all. -/
theorem take_zero_invokes_inner :
    (takeReader USIZE_MAX_64 failReader).fillBuf ⟨(), 0⟩ = .error 7 ∧
    (takeReader USIZE_MAX_64 countingEmptyReader).fillBuf ⟨0, 0⟩
      = .ok ([], ⟨1, 0⟩) := by
  constructor
  · rfl
  · simp [takeReader, countingEmptyReader, takeTruncMin]

/-- Claim C3 (code bug evaluation): on `take(A, 0)` the `fill_buf` part of
the claim holds (an empty slice is returned), but `read_exact` with a
destination of length 1 constructs `UnexpectedEnd::new(required, buf.len())`
passing the bytes still needed — so the error fields are
`(total_required = 1, available = 1)`, not `(required = 1, available = 0)`
as the claim and the field's own `Display` text ("... bytes were read")
require. -/
theorem take_zero_read_exact_fields :
    (takeReader USIZE_MAX_64 sliceReader).fillBuf ⟨[1, 2, 3], 0⟩
      = .ok ([], ⟨[1, 2, 3], 0⟩) ∧
    readExact (takeReader USIZE_MAX_64 sliceReader) 1 ⟨[1, 2, 3], 0⟩
      = .error (.unexpectedEnd ⟨1, 1⟩) := by
  constructor
  · simp [takeReader, sliceReader, takeTruncMin, USIZE_MAX_64]
  · simp [readExact, readExactLoop, takeReader, sliceReader, takeTruncMin,
          USIZE_MAX_64]

/-- Claim C4: for all byte sequences `A` and `B`, reading `chain(A, B)` to
completion via the `fill_buf`/`consume` loop yields exactly `A ++ B`, the
loop terminates in at most three `fill_buf` calls, and from the resulting
end-of-stream state every further `fill_buf` returns an empty slice with
the state unchanged — hence empty indefinitely. -/
theorem chain_reads_concat (A B : List Byte) :
    readAll (chainReader sliceReader sliceReader) 3 ⟨A, B, false⟩
      = some (.ok (A ++ B, ⟨[], [], true⟩))
    ∧ (chainReader sliceReader sliceReader).fillBuf ⟨[], [], true⟩
      = .ok ([], ⟨[], [], true⟩) := by
  constructor
  · rcases A with _ | ⟨a, as⟩ <;> rcases B with _ | ⟨b, bs⟩ <;>
      simp [readAll, chainReader, sliceReader]
  · simp [chainReader, sliceReader]

/-- Claim C5: for every byte sequence `A` (whose length fits the platform
word size `usizeMax`) and every `u64` limit — including limits exceeding
the platform word size — reading `take(A, limit)` to completion yields
exactly the first `min(|A|, limit)` bytes of `A`. -/
theorem take_reads_min_bytes (usizeMax : Nat) (A : List Byte) (limit : Nat)
    (hA : A.length ≤ usizeMax) (hlim : limit < U64_MOD) :
    ∃ sf, readAll (takeReader usizeMax sliceReader) 2 ⟨A, limit⟩
      = some (.ok (A.take (Nat.min A.length limit), sf)) := by
  set k := takeTruncMin usizeMax limit A.length with hk
  have hk_len : k ≤ A.length := by
    rw [hk]; unfold takeTruncMin; split
    · exact Nat.min_le_right _ _
    · exact le_refl _
  have hk_lim : k ≤ limit := by
    rw [hk]; unfold takeTruncMin; split
    · exact Nat.min_le_left _ _
    · omega
  have htake : A.take k = A.take (Nat.min A.length limit) := by
    rw [hk]; unfold takeTruncMin; split
    · rw [show Nat.min limit A.length = Nat.min A.length limit from Nat.min_comm _ _]
    · have h : Nat.min A.length limit = A.length := Nat.min_eq_left (by omega)
      rw [h, List.take_length]
  have hfill1 : (takeReader usizeMax sliceReader).fillBuf ⟨A, limit⟩
      = .ok (A.take k, ⟨A, limit⟩) := rfl
  by_cases hz : (A.take k).isEmpty
  · refine ⟨⟨A, limit⟩, ?_⟩
    have hnil : A.take (Nat.min A.length limit) = [] := by
      rw [← htake]; simpa using hz
    rw [show (2 : Nat) = 1 + 1 from rfl, readAll_succ, hfill1]
    dsimp only
    rw [if_pos hz, ← htake]
    simpa using hz
  · have hlen : (A.take k).length = k := by
      rw [List.length_take]; exact Nat.min_eq_left hk_len
    have hcons : (takeReader usizeMax sliceReader).consume k ⟨A, limit⟩
        = ⟨A.drop k, limit - k⟩ := by
      show (⟨A.drop k, (limit + U64_MOD - k % U64_MOD) % U64_MOD⟩ : TakeState _)
        = ⟨A.drop k, limit - k⟩
      rw [u64_wrap_sub_eq limit k hk_lim hlim]
    have hd : A.drop k = [] ∨ limit - k = 0 := by
      rw [hk]; unfold takeTruncMin; split
      · rcases le_or_lt limit A.length with h | h
        · right
          have h2 : Nat.min limit A.length = limit := Nat.min_eq_left h
          omega
        · left
          have h2 : Nat.min limit A.length = A.length := Nat.min_eq_right (by omega)
          rw [h2]
          exact List.drop_length _
      · left; exact List.drop_length _
    have hstop : (A.drop k).take
        (takeTruncMin usizeMax (limit - k) (A.drop k).length) = [] := by
      rcases hd with h | h
      · simp [h]
      · simp [h, takeTruncMin]
    have hfill2 : (takeReader usizeMax sliceReader).fillBuf ⟨A.drop k, limit - k⟩
        = .ok ((A.drop k).take (takeTruncMin usizeMax (limit - k) (A.drop k).length),
               ⟨A.drop k, limit - k⟩) := rfl
    refine ⟨⟨A.drop k, limit - k⟩, ?_⟩
    rw [show (2 : Nat) = 1 + 1 from rfl, readAll_succ, hfill1]
    dsimp only
    rw [if_neg hz, hlen, hcons,
        show (1 : Nat) = 0 + 1 from rfl, readAll_succ, hfill2]
    dsimp only
    rw [hstop]
    simp [htake]

/-- Witness for claim C5 at `A = [5, 6, 7]`, `limit = 2`, `usizeMax = 1000`. -/
theorem take_reads_min_bytes_witness :
    ([5, 6, 7] : List Byte).length ≤ 1000 ∧
      ∃ sf, readAll (takeReader 1000 sliceReader) 2 ⟨[5, 6, 7], 2⟩
        = some (.ok (List.take (Nat.min ([5, 6, 7] : List Byte).length 2) [5, 6, 7], sf)) :=
  ⟨by norm_num, take_reads_min_bytes 1000 [5, 6, 7] 2 (by norm_num) (by norm_num [U64_MOD])⟩

/-- Claim C6: for the fixed-capacity writer over a buffer `buf` at position
`pos` (remaining capacity `C = |buf| - pos`), `write_all` of a sequence `X`
with `|X| > C` fails with a `BufferOverflow` whose `bytes_past_end` equals
`|X| - C` and leaves the writer state unchanged; with `|X| ≤ C` it succeeds,
the buffer keeps its length and its prefix before `pos`, the written region
starting at `pos` holds exactly `X`, the tail beyond it is untouched, and
the position advances by `|X|`. -/
theorem slice_writer_overflow_exact (buf : List Byte) (pos : Nat) (X : List Byte)
    (hpos : pos ≤ buf.length) :
    (X.length > buf.length - pos →
      sliceWriteAll X ⟨buf, pos⟩
        = (.error ⟨X.length - (buf.length - pos)⟩, ⟨buf, pos⟩)) ∧
    (X.length ≤ buf.length - pos →
      (sliceWriteAll X ⟨buf, pos⟩).1 = .ok () ∧
      (sliceWriteAll X ⟨buf, pos⟩).2.pos = pos + X.length ∧
      (sliceWriteAll X ⟨buf, pos⟩).2.buf.length = buf.length ∧
      (sliceWriteAll X ⟨buf, pos⟩).2.buf.take pos = buf.take pos ∧
      ((sliceWriteAll X ⟨buf, pos⟩).2.buf.drop pos).take X.length = X ∧
      (sliceWriteAll X ⟨buf, pos⟩).2.buf.drop (pos + X.length)
        = buf.drop (pos + X.length)) := by
  have hlt : (buf.take pos).length = pos := by
    rw [List.length_take]; omega
  constructor
  · intro h
    unfold sliceWriteAll
    dsimp only
    rw [if_pos h]
  · intro h
    unfold sliceWriteAll
    dsimp only
    rw [if_neg (by omega)]
    dsimp only
    refine ⟨rfl, rfl, ?_, ?_, ?_, ?_⟩
    · simp only [List.length_append, List.length_take, List.length_drop]
      omega
    · rw [List.append_assoc, List.take_append_of_le_length (le_of_eq hlt.symm),
          List.take_take]
      simp
    · rw [List.append_assoc, List.drop_left' hlt, List.take_left' rfl]
    · have hl2 : (buf.take pos ++ X).length = pos + X.length := by
        rw [List.length_append, hlt]
      rw [List.drop_left' hl2]

/-- Witness for claim C6 at `buf = [9, 9, 9]`, `pos = 1`, both an
overflowing write (`X = [5, 5, 5]`, excess 1) and a fitting write are
covered by the two implications of the applied theorem. -/
theorem slice_writer_overflow_exact_witness :
    (1 : Nat) ≤ ([9, 9, 9] : List Byte).length ∧
    ((([5, 5, 5] : List Byte).length > ([9, 9, 9] : List Byte).length - 1 →
      sliceWriteAll [5, 5, 5] ⟨[9, 9, 9], 1⟩
        = (.error ⟨([5, 5, 5] : List Byte).length
            - (([9, 9, 9] : List Byte).length - 1)⟩, ⟨[9, 9, 9], 1⟩)) ∧
    (([5, 5, 5] : List Byte).length ≤ ([9, 9, 9] : List Byte).length - 1 →
      (sliceWriteAll [5, 5, 5] ⟨[9, 9, 9], 1⟩).1 = .ok () ∧
      (sliceWriteAll [5, 5, 5] ⟨[9, 9, 9], 1⟩).2.pos = 1 + ([5, 5, 5] : List Byte).length ∧
      (sliceWriteAll [5, 5, 5] ⟨[9, 9, 9], 1⟩).2.buf.length = ([9, 9, 9] : List Byte).length ∧
      (sliceWriteAll [5, 5, 5] ⟨[9, 9, 9], 1⟩).2.buf.take 1 = ([9, 9, 9] : List Byte).take 1 ∧
      ((sliceWriteAll [5, 5, 5] ⟨[9, 9, 9], 1⟩).2.buf.drop 1).take ([5, 5, 5] : List Byte).length
        = [5, 5, 5] ∧
      (sliceWriteAll [5, 5, 5] ⟨[9, 9, 9], 1⟩).2.buf.drop (1 + ([5, 5, 5] : List Byte).length)
        = ([9, 9, 9] : List Byte).drop (1 + ([5, 5, 5] : List Byte).length))) :=
  ⟨by norm_num, slice_writer_overflow_exact [9, 9, 9] 1 [5, 5, 5] (by norm_num)⟩

/-- Claim C7: the four error-mapping adapters are pure delegation plus an
error transform.  For each of `MapReadErr`, `MapWriteErr`, `MapErr` and
`UnifyErr`: `consume` is forwarded untouched, a failing inner call with
error `e` yields exactly the transformed error, and a succeeding inner call
yields the same bytes and the same successor state as the inner entity. -/
theorem map_err_adapters_delegate {σ ε₁ ε₂ ε₃ : Type} (r : Reader σ ε₁)
    (w : Writer σ ε₁) (io : ReadWriter σ ε₁ ε₁) (iu : ReadWriter σ ε₁ ε₂)
    (f : ε₁ → ε₃) (g : ε₂ → ε₃) (s : σ) (bytes : List Byte) (n : Nat) :
    ((mapReadErr r f).consume n s = r.consume n s) ∧
    (∀ e, r.fillBuf s = .error e → (mapReadErr r f).fillBuf s = .error (f e)) ∧
    (∀ b s', r.fillBuf s = .ok (b, s') → (mapReadErr r f).fillBuf s = .ok (b, s')) ∧
    (∀ e, w.writeAll bytes s = .error e → (mapWriteErr w f).writeAll bytes s = .error (f e)) ∧
    (∀ s', w.writeAll bytes s = .ok s' → (mapWriteErr w f).writeAll bytes s = .ok s') ∧
    (∀ e, w.flush s = .error e → (mapWriteErr w f).flush s = .error (f e)) ∧
    (∀ s', w.flush s = .ok s' → (mapWriteErr w f).flush s = .ok s') ∧
    ((mapErr io f).consume n s = io.consume n s) ∧
    (∀ e, io.fillBuf s = .error e → (mapErr io f).fillBuf s = .error (f e)) ∧
    (∀ b s', io.fillBuf s = .ok (b, s') → (mapErr io f).fillBuf s = .ok (b, s')) ∧
    (∀ e, io.writeAll bytes s = .error e → (mapErr io f).writeAll bytes s = .error (f e)) ∧
    (∀ s', io.writeAll bytes s = .ok s' → (mapErr io f).writeAll bytes s = .ok s') ∧
    (∀ e, io.flush s = .error e → (mapErr io f).flush s = .error (f e)) ∧
    (∀ s', io.flush s = .ok s' → (mapErr io f).flush s = .ok s') ∧
    ((unifyErr iu f g).consume n s = iu.consume n s) ∧
    (∀ e, iu.fillBuf s = .error e → (unifyErr iu f g).fillBuf s = .error (f e)) ∧
    (∀ b s', iu.fillBuf s = .ok (b, s') → (unifyErr iu f g).fillBuf s = .ok (b, s')) ∧
    (∀ e, iu.writeAll bytes s = .error e → (unifyErr iu f g).writeAll bytes s = .error (g e)) ∧
    (∀ s', iu.writeAll bytes s = .ok s' → (unifyErr iu f g).writeAll bytes s = .ok s') ∧
    (∀ e, iu.flush s = .error e → (unifyErr iu f g).flush s = .error (g e)) ∧
    (∀ s', iu.flush s = .ok s' → (unifyErr iu f g).flush s = .ok s') := by
  repeat' apply And.intro
  all_goals
    first
    | rfl
    | (intro e h
       simp [mapReadErr, mapWriteErr, mapErr, unifyErr, mapError, h])
    | (intro b s' h
       simp [mapReadErr, mapErr, unifyErr, mapError, h])

/-- Witness for claim C7: the four adapters applied at concrete inner
entities, with one failing and one succeeding call each instantiated. -/
theorem map_err_adapters_delegate_witness :
    (mapReadErr constErrReader (fun e => e * 2)).fillBuf 3 = .error 8 ∧
    (mapWriteErr natWriter (fun e => e * 2)).writeAll [1, 2] 3 = .ok 5 ∧
    (mapErr toyIo (fun e => e * 2)).fillBuf 3 = .ok ([7], 4) ∧
    (unifyErr toyIo (fun e => e * 2) (fun e => e + 1)).writeAll [1, 2] 3 = .error 6 := by
  obtain ⟨h1, h2, h3, h4, h5, h6, h7, h8, h9, h10, h11, h12, h13, h14,
          h15, h16, h17, h18, h19, h20, h21⟩ :=
    map_err_adapters_delegate constErrReader natWriter toyIo toyIo
      (fun e => e * 2) (fun e => e + 1) 3 [1, 2] 0
  exact ⟨h2 4 rfl, h5 5 rfl, h10 [7] 4 rfl, h18 5 rfl⟩

/-- Helper: whatever result the reverse bridge's `fill_buf` returns, it is
never an `Interrupted` error. -/
theorem stdFillBuf_never_interrupted :
    ∀ (l : List StdResult) (r' : StdResult) (rest' : List StdResult),
      stdBufReadFillBuf l = some (r', rest') → isInterruptedResult r' = false := by
  intro l
  induction l with
  | nil => intro r' rest' h; simp [stdBufReadFillBuf] at h
  | cons x xs ih =>
    intro r' rest' h
    match x with
    | .ok b =>
      simp [stdBufReadFillBuf] at h
      rw [← h.1]
      rfl
    | .error e =>
      by_cases hk : e.kind = IoErrorKind.interrupted
      · rw [show stdBufReadFillBuf (.error e :: xs) = stdBufReadFillBuf xs by
              simp [stdBufReadFillBuf, hk]] at h
        exact ih r' rest' h
      · simp [stdBufReadFillBuf, hk] at h
        rw [← h.1]
        simp [isInterruptedResult, hk]

/-- Claim C8: the reverse bridge's `fill_buf`, run over a response script
consisting of a prefix of `Interrupted` errors followed by any
non-`Interrupted` result, skips the whole prefix and returns that first
non-`Interrupted` result unchanged (bytes on success, the error as-is
otherwise); moreover no call ever returns an `Interrupted` error. -/
theorem std_bufread_skips_interrupted (pre rest : List StdResult) (res : StdResult)
    (h1 : ∀ x ∈ pre, isInterruptedResult x = true)
    (h2 : isInterruptedResult res = false) :
    stdBufReadFillBuf (pre ++ res :: rest) = some (res, rest) ∧
    ∀ (l : List StdResult) (r' : StdResult) (rest' : List StdResult),
      stdBufReadFillBuf l = some (r', rest') → isInterruptedResult r' = false := by
  refine ⟨?_, stdFillBuf_never_interrupted⟩
  induction pre with
  | nil =>
    simp only [List.nil_append]
    match res with
    | .ok b => rfl
    | .error e =>
      have hk : ¬ e.kind = IoErrorKind.interrupted := by
        simpa [isInterruptedResult] using h2
      simp [stdBufReadFillBuf, hk]
  | cons x xs ih =>
    have hx : isInterruptedResult x = true := h1 x (by simp)
    match x with
    | .ok b => simp [isInterruptedResult] at hx
    | .error e =>
      have hk : e.kind = IoErrorKind.interrupted := by
        simpa [isInterruptedResult] using hx
      simp only [List.cons_append]
      rw [show stdBufReadFillBuf (.error e :: (xs ++ res :: rest))
            = stdBufReadFillBuf (xs ++ res :: rest) by
            simp [stdBufReadFillBuf, hk]]
      exact ih (fun y hy => h1 y (by simp [hy]))

/-- Witness for claim C8: one leading interrupted error is skipped and a
subsequent non-interrupted error is returned as-is. -/
theorem std_bufread_skips_interrupted_witness :
    (∀ x ∈ ([.error ⟨.interrupted, 5⟩] : List StdResult), isInterruptedResult x = true) ∧
    isInterruptedResult (.error ⟨.other 3, 9⟩ : StdResult) = false ∧
    stdBufReadFillBuf
        (([.error ⟨.interrupted, 5⟩] : List StdResult)
          ++ (.error ⟨.other 3, 9⟩ : StdResult) :: [.ok [1]])
      = some (.error ⟨.other 3, 9⟩, [.ok [1]]) :=
  ⟨by decide, by decide,
   (std_bufread_skips_interrupted [.error ⟨.interrupted, 5⟩] [.ok [1]]
      (.error ⟨.other 3, 9⟩) (by decide) (by decide)).1⟩

/-- Claim C9: after a successful `Take::fill_buf` whose truncated slice has
length `L`, any `consume(amount)` with `amount ≤ L` cannot underflow the
64-bit budget: the truncation `min(limit, buf.len())` guarantees
`L ≤ limit`, so `amount ≤ limit` and the wrapping subtraction
`limit -= amount` equals the exact subtraction. -/
theorem take_consume_no_underflow {σ ε : Type} (usizeMax : Nat) (r : Reader σ ε)
    (s : TakeState σ) (ibuf : List Byte) (is' : σ) (obuf : List Byte)
    (s₂ : TakeState σ) (amount : Nat)
    (hinner : r.fillBuf s.reader = .ok (ibuf, is'))
    (hfit : ibuf.length ≤ usizeMax)
    (hlim : s.limit < U64_MOD)
    (houter : (takeReader usizeMax r).fillBuf s = .ok (obuf, s₂))
    (hamt : amount ≤ obuf.length) :
    amount ≤ s₂.limit ∧
      (takeReader usizeMax r).consume amount s₂
        = ⟨r.consume amount s₂.reader, s₂.limit - amount⟩ := by
  have hform : (takeReader usizeMax r).fillBuf s
      = .ok (ibuf.take (takeTruncMin usizeMax s.limit ibuf.length), ⟨is', s.limit⟩) := by
    show (match r.fillBuf s.reader with
          | Except.error e => Except.error e
          | Except.ok (buf, s') =>
              Except.ok (buf.take (takeTruncMin usizeMax s.limit buf.length),
                (⟨s', s.limit⟩ : TakeState σ))) = _
    rw [hinner]
  have hx := hform.symm.trans houter
  simp only [Except.ok.injEq, Prod.mk.injEq] at hx
  obtain ⟨hbuf, hst⟩ := hx
  have hkle : takeTruncMin usizeMax s.limit ibuf.length ≤ s.limit := by
    unfold takeTruncMin; split
    · exact Nat.min_le_left _ _
    · omega
  have hoblen : obuf.length ≤ s.limit := by
    rw [← hbuf, List.length_take]
    exact le_trans (Nat.min_le_left _ _) hkle
  have hamt_lim : amount ≤ s.limit := le_trans hamt hoblen
  have hs2lim : s₂.limit = s.limit := by rw [← hst]
  constructor
  · rw [hs2lim]; exact hamt_lim
  · show (⟨r.consume amount s₂.reader,
          (s₂.limit + U64_MOD - amount % U64_MOD) % U64_MOD⟩ : TakeState σ)
      = ⟨r.consume amount s₂.reader, s₂.limit - amount⟩
    rw [hs2lim, u64_wrap_sub_eq s.limit amount hamt_lim hlim]

/-- Witness for claim C9 at the slice reader `[1, 2, 3]` with budget 2:
`fill_buf` returns a slice of length 2 and `consume 2` subtracts exactly. -/
theorem take_consume_no_underflow_witness :
    (2 : Nat) ≤ (⟨[1, 2, 3], (2 : Nat)⟩ : TakeState (List Byte)).limit ∧
      (takeReader 1000 sliceReader).consume 2 ⟨[1, 2, 3], 2⟩
        = ⟨sliceReader.consume 2 [1, 2, 3], 2 - 2⟩ :=
  take_consume_no_underflow 1000 sliceReader ⟨[1, 2, 3], 2⟩ [1, 2, 3] [1, 2, 3]
    [1, 2] ⟨[1, 2, 3], 2⟩ 2 rfl (by norm_num) (by norm_num [U64_MOD])
    (by simp [takeReader, sliceReader, takeTruncMin]) (by norm_num)

/-- Claim C10: the forward-bridge `write` methods of `AsStd` and
`AsStdWriter` are all-or-nothing: they return `Ok` exactly when the inner
`write_all` accepted the whole buffer, and the reported count is then the
full buffer length — never a partial count. -/
theorem as_std_write_all_or_none {σ ε₁ ε₂ : Type} (io : ReadWriter σ ε₁ ε₂)
    (w : Writer σ ε₂) (ir : ε₁ → IoError) (iw : ε₂ → IoError)
    (buf : List Byte) (s : σ) (n : Nat) (s' : σ) :
    (asStdWrite io ir iw buf s = .ok (n, s')
      ↔ io.writeAll buf s = .ok s' ∧ n = buf.length) ∧
    (asStdWriterWrite w iw buf s = .ok (n, s')
      ↔ w.writeAll buf s = .ok s' ∧ n = buf.length) := by
  constructor
  · cases hw : io.writeAll buf s <;>
      simp [asStdWrite, unifyErr, mapError, hw, eq_comm, and_comm]
  · cases hw : w.writeAll buf s <;>
      simp [asStdWriterWrite, hw, eq_comm, and_comm]

/-- Witness for claim C10: writing three bytes through either bridge over
the growable-buffer writer reports the full count 3. -/
theorem as_std_write_all_or_none_witness :
    asStdWrite vecIo Empty.elim Empty.elim [1, 2, 3] [] = .ok (3, [1, 2, 3]) ∧
    asStdWriterWrite vecWriter Empty.elim [1, 2, 3] [] = .ok (3, [1, 2, 3]) :=
  ⟨(as_std_write_all_or_none vecIo vecWriter Empty.elim Empty.elim
      [1, 2, 3] [] 3 [1, 2, 3]).1.mpr ⟨rfl, rfl⟩,
   (as_std_write_all_or_none vecIo vecWriter Empty.elim Empty.elim
      [1, 2, 3] [] 3 [1, 2, 3]).2.mpr ⟨rfl, rfl⟩⟩

end Lgio
